import Mathlib

/-!
Verification development for the preset-configuration core of
`mlx_omni_server` (`src/mlx_omni_server/utils/mlx_preset.py`).

The configuration document is the JSON object held in `config.json`:
a recursively nested mapping from string keys to scalar values or
nested mappings.  Python's `dict` is modelled by an insertion-ordered
association list; scalar JSON values (the sampling parameters, e.g.
temperatures) are carried as `Int`, since the code never inspects them.
-/

/-- A JSON configuration value: either a scalar or an object
(insertion-ordered mapping from string keys to values), exactly the
shape `json.load` produces for the preset `config.json`. -/
inductive JValue : Type where
  | scalar : Int → JValue
  | obj : List (String × JValue) → JValue

/-- The contents of a Python `dict` with string keys, in insertion order. -/
abbrev JDict := List (String × JValue)

/-- `d.get(k)` without a default: the value at the first (unique) binding
of `k`, if any. -/
def dictGet : JDict → String → Option JValue
  | [], _ => none
  | (k', v') :: rest, k => if k' = k then some v' else dictGet rest k

/-- `d[k] = v` on a Python dict: replace the binding of `k` in place if it
exists (keeping its position), otherwise append a new binding at the end. -/
def dictSet : JDict → String → JValue → JDict
  | [], k, v => [(k, v)]
  | (k', v') :: rest, k, v =>
      if k' = k then (k, v) :: rest else (k', v') :: dictSet rest k v

/-- The Python exceptions the preset manager can raise. -/
inductive PyErr : Type where
  | indexError
  | typeError
  | attributeError
  | fileNotFoundError
  | ioError
deriving DecidableEq

/-- `v.get(k, {})` in Python: on a dict, look `k` up, defaulting to the
empty dict; on a scalar, `.get` does not exist and an `AttributeError`
is raised. -/
def jGet (v : JValue) (k : String) : Except PyErr JValue :=
  match v with
  | .obj d => .ok ((dictGet d k).getD (.obj []))
  | .scalar _ => .error .attributeError

/-- `PresetManager.get_preset_by_preset_model_name`:
`cfg.get(preset, {}).get(model_name, {})`.  The classmethod obtains
`cfg` from `_load_config`; here the loaded document is an explicit
argument. -/
def get_preset_by_preset_model_name (cfg : JValue) (preset model_name : String) :
    Except PyErr JValue :=
  (jGet cfg preset).bind fun v => jGet v model_name

/-- `PresetManager.get_preset_by_preset_slug_model_name`:
`cfg.get(preset, {}).get(slug, {}).get(mode_name, {})`. -/
def get_preset_by_preset_slug_model_name (cfg : JValue)
    (preset slug mode_name : String) : Except PyErr JValue :=
  ((jGet cfg preset).bind fun v => jGet v slug).bind fun v => jGet v mode_name

/-- `PresetManager.get_default_preset`: `cfg.get(preset, {}).get("default", {})`. -/
def get_default_preset (cfg : JValue) (preset : String) : Except PyErr JValue :=
  (jGet cfg preset).bind fun v => jGet v "default"

/-- `PresetManager.get_default_slug_preset`:
`cfg.get(preset, {}).get(slug, {}).get("default", {})`. -/
def get_default_slug_preset (cfg : JValue) (preset slug : String) :
    Except PyErr JValue :=
  ((jGet cfg preset).bind fun v => jGet v slug).bind fun v => jGet v "default"

/-- The nested-update walk of `PresetManager.update_preset`:

```
d = cfg
for key in key_path[:-1]:
    d = d.setdefault(key, {})
d[key_path[-1]] = value
```

Recursion on the key path replaces the iterative in-place walk: at a
non-final key, `setdefault` continues into the existing value (or a
fresh `{}` appended if the key is absent) and raises `AttributeError`
when the current value is a scalar; at the final key, item assignment
stores `value` and raises `TypeError` when the current value is a
scalar; an empty path raises `IndexError` from `key_path[-1]`.
Because `setdefault` creates a binding only where a key is absent, and
everything below a freshly created `{}` is again fresh, a raise can
only happen before any binding has been created: on error the document
is unchanged, exactly as in the in-place Python walk. -/
def setKeyPath (cfg : JValue) : List String → Int → Except PyErr JValue
  | [], _ => .error .indexError
  | [last], value =>
      match cfg with
      | .scalar _ => .error .typeError
      | .obj d => .ok (.obj (dictSet d last (.scalar value)))
  | k :: k' :: rest, value =>
      match cfg with
      | .scalar _ => .error .attributeError
      | .obj d =>
          (setKeyPath ((dictGet d k).getD (.obj [])) (k' :: rest) value).map
            fun cur => .obj (dictSet d k cur)

/-- The per-process state of `PresetManager`: the durable `config.json`
(`none` when missing or unparsable) and the class-level `_cache`. -/
structure MState : Type where
  file : Option JValue
  cache : Option JValue

/-- `PresetManager._load_config`: return the cached document if present,
otherwise read and parse the durable file, populate the cache and
return the document; raise when the file is missing or unparsable. -/
def _load_config (st : MState) : MState × Except PyErr JValue :=
  match st.cache with
  | some c => (st, .ok c)
  | none =>
      match st.file with
      | some d => ({ st with cache := some d }, .ok d)
      | none => (st, .error .fileNotFoundError)

/-- `PresetManager.update_preset`: load the document, run the
`setdefault` walk, then serialize the whole document back to the file
with `open("w")` + `json.dump` and point `_cache` at it.

`writeOk` injects the outcome of the file write (`true`: the write
succeeds; `false`: it raises an `OSError` before any bytes reach the
file, e.g. `open` fails).  Since `_load_config` returns the cached
object itself and the walk mutates it in place, the cache already
holds the updated document when the write starts — also when the write
then fails. -/
def update_preset (writeOk : Bool) (st : MState) (key_path : List String)
    (value : Int) : MState × Except PyErr Unit :=
  match _load_config st with
  | (st1, .error e) => (st1, .error e)
  | (st1, .ok cfg) =>
      match setKeyPath cfg key_path value with
      | .error e => (st1, .error e)
      | .ok newCfg =>
          let st2 : MState := { st1 with cache := some newCfg }
          if writeOk then ({ st2 with file := some newCfg }, .ok ())
          else (st2, .error .ioError)

/-- Pure path lookup in a document: the value reached by indexing each
key in turn, `none` as soon as a key is absent or a scalar is indexed. -/
def getPath : JValue → List String → Option JValue
  | v, [] => some v
  | .obj d, k :: ks =>
      match dictGet d k with
      | some v => getPath v ks
      | none => none
  | .scalar _, _ :: _ => none

/-- `q` is a (not necessarily strict) leading segment of `p`. -/
def pathLe (q p : List String) : Prop := ∃ r, q ++ r = p

/-- A key path `update_preset` can descend: non-empty, and no value at
any leading segment of `key_path[:-1]` (the root included) is a
scalar. -/
def validPath (cfg : JValue) (p : List String) : Prop :=
  p ≠ [] ∧ ∀ q s, pathLe q p.dropLast → getPath cfg q ≠ some (.scalar s)

/-- The document after a leading run of iterations of `update_preset`'s
`setdefault` loop: each processed key is ensured present (a fresh `{}`
appended where absent), mutating the shared cached document in place.
On a scalar the loop raises and mutates nothing further. -/
def ensureKeys (cfg : JValue) : List String → JValue
  | [] => cfg
  | k :: ks =>
      match cfg with
      | .scalar _ => cfg
      | .obj d => .obj (dictSet d k (ensureKeys ((dictGet d k).getD (.obj [])) ks))

/-- The successive values of the shared cached document observable while
`update_preset` runs: the state after each `setdefault` of the loop over
`key_path[:-1]`, then the state after the final item assignment.  The
walk mutates the document `_load_config` handed out — the very object a
concurrent reader holds — so these are the versions such a reader can
see. -/
def updateWalkStates (cfg : JValue) (key_path : List String) (value : Int) :
    List JValue :=
  ((List.range (key_path.dropLast.length + 1)).map fun i =>
    ensureKeys cfg (key_path.dropLast.take i)) ++
  match setKeyPath cfg key_path value with
  | .ok n => [n]
  | .error _ => []

/-- `indent` spaces, as emitted by `json.dump(cfg, f, indent=2)`. -/
def jsonIndent (n : Nat) : String := String.mk (List.replicate n ' ')

mutual

/-- Serialization of a value by `json.dump(cfg, f, indent=2)` at the
given indentation depth (preset keys contain no characters `json`
escapes, so a key is emitted verbatim between quotes). -/
def dumpVal : Nat → JValue → String
  | _, .scalar n => toString n
  | _, .obj [] => "\x7b\x7d"
  | ind, .obj (e :: es) =>
      "\x7b\n" ++ dumpEntries (ind + 2) e es ++ "\n" ++ jsonIndent ind ++ "\x7d"
termination_by _ v => sizeOf v

/-- Serialization of the comma-separated `"key": value` lines of a
non-empty object at the given indentation depth. -/
def dumpEntries : Nat → (String × JValue) → List (String × JValue) → String
  | ind, (k, v), [] => jsonIndent ind ++ "\"" ++ k ++ "\": " ++ dumpVal ind v
  | ind, (k, v), e :: es =>
      jsonIndent ind ++ "\"" ++ k ++ "\": " ++ dumpVal ind v ++ ",\n" ++
        dumpEntries ind e es
termination_by _ e es => sizeOf e + sizeOf es

end

/-- Full-file serialization, as `json.dump(cfg, f, indent=2)` writes it. -/
def dumpJson (doc : JValue) : String := dumpVal 0 doc

/-- The successive contents of `config.json` while `update_preset`
writes: `open("w")` truncates the file in place, then `json.dump`
streams the serialization, so the observable contents are exactly the
leading pieces of the new serialization — from the empty file up to the
complete document. -/
def persistFileContents (doc : JValue) : List String :=
  (List.range ((dumpJson doc).length + 1)).map fun n =>
    String.mk ((dumpJson doc).toList.take n)

def lbrace : Char := Char.ofNat 123

def rbrace : Char := Char.ofNat 125

/-- JSON insignificant whitespace. -/
def isJsonWs (c : Char) : Bool := c = ' ' || c = '\n' || c = '\t' || c = '\r'

def skipWs (cs : List Char) : List Char := cs.dropWhile isJsonWs

/-- Value of a non-empty digit run. -/
def digitsToNat (ds : List Char) : Nat :=
  ds.foldl (fun a c => a * 10 + (c.toNat - 48)) 0

/-- Parse a quoted key (preset keys contain no escapes). -/
def parseKeyString : List Char → Option (String × List Char)
  | '"' :: rest =>
      match rest.dropWhile (· ≠ '"') with
      | '"' :: rest' => some (String.mk (rest.takeWhile (· ≠ '"')), rest')
      | _ => none
  | _ => none

mutual

/-- Parse one JSON value (integer scalar or object), as `json.load`
reads the document back; fuelled recursion over the nesting. -/
def parseVal : Nat → List Char → Option (JValue × List Char)
  | 0, _ => none
  | fuel + 1, cs =>
      match skipWs cs with
      | [] => none
      | c :: rest =>
          if c = lbrace then
            match skipWs rest with
            | c' :: rest' =>
                if c' = rbrace then some (.obj [], rest')
                else
                  (parseEntries fuel (c' :: rest')).map fun p => (.obj p.1, p.2)
            | [] => none
          else if c = '-' then
            match rest.takeWhile Char.isDigit with
            | [] => none
            | ds => some (.scalar (-(digitsToNat ds : Int)),
                rest.dropWhile Char.isDigit)
          else if c.isDigit then
            some (.scalar (digitsToNat ((c :: rest).takeWhile Char.isDigit)),
              (c :: rest).dropWhile Char.isDigit)
          else none

/-- Parse the `"key": value` entries of a non-empty object, up to and
consuming the closing brace. -/
def parseEntries : Nat → List Char → Option (List (String × JValue) × List Char)
  | 0, _ => none
  | fuel + 1, cs =>
      match parseKeyString (skipWs cs) with
      | none => none
      | some (k, r1) =>
          match skipWs r1 with
          | ':' :: r2 =>
              match parseVal fuel r2 with
              | none => none
              | some (v, r3) =>
                  match skipWs r3 with
                  | ',' :: r4 =>
                      (parseEntries fuel r4).map fun p => ((k, v) :: p.1, p.2)
                  | c :: r4 => if c = rbrace then some ([(k, v)], r4) else none
                  | [] => none
          | _ => none

end

/-- `json.load` on the durable file's contents: parse one document and
require only whitespace after it; `none` models `JSONDecodeError`. -/
def parseJsonDoc (s : String) : Option JValue :=
  match parseVal (s.length + 1) s.toList with
  | some (v, rest) => if skipWs rest = [] then some v else none
  | none => none

theorem dictGet_dictSet_self (d : JDict) (k : String) (v : JValue) :
    dictGet (dictSet d k v) k = some v := by
  induction d with
  | nil => simp [dictGet, dictSet]
  | cons e rest ih =>
      obtain ⟨k', v'⟩ := e
      by_cases h : k' = k
      · simp [dictGet, dictSet, h]
      · simp [dictGet, dictSet, h, ih]

theorem dictGet_dictSet_ne (d : JDict) (k k' : String) (v : JValue)
    (h : k ≠ k') : dictGet (dictSet d k v) k' = dictGet d k' := by
  induction d with
  | nil => simp [dictGet, dictSet, h]
  | cons e rest ih =>
      obtain ⟨k₀, v₀⟩ := e
      by_cases h0 : k₀ = k
      · simp [dictGet, dictSet, h0, h]
      · by_cases h1 : k₀ = k'
        · simp [dictGet, dictSet, h0, h1, Ne.symm h]
        · simp [dictGet, dictSet, h0, h1, ih]

theorem dictSet_dictSet_self (d : JDict) (k : String) (v : JValue) :
    dictSet (dictSet d k v) k v = dictSet d k v := by
  induction d with
  | nil => simp [dictSet]
  | cons e rest ih =>
      obtain ⟨k₀, v₀⟩ := e
      by_cases h0 : k₀ = k
      · simp [dictSet, h0]
      · simp [dictSet, h0, ih]

theorem pathLe_nil_left (p : List String) : pathLe [] p := ⟨p, rfl⟩

theorem pathLe_nil_right (q : List String) (h : pathLe q []) : q = [] := by
  obtain ⟨r, hr⟩ := h
  exact (List.append_eq_nil.mp hr).1

theorem pathLe_cons_iff (a b : String) (q p : List String) :
    pathLe (a :: q) (b :: p) ↔ a = b ∧ pathLe q p := by
  constructor
  · rintro ⟨r, hr⟩
    rw [List.cons_append] at hr
    exact ⟨(List.cons.injEq _ _ _ _ ▸ hr).1, r, (List.cons.injEq _ _ _ _ ▸ hr).2⟩
  · rintro ⟨rfl, r, hr⟩
    exact ⟨r, by rw [List.cons_append, hr]⟩

theorem pathLe_dropLast (p : List String) (h : p ≠ []) :
    pathLe p.dropLast p := ⟨[p.getLast h], List.dropLast_append_getLast h⟩

theorem getPath_obj_nil (q : List String) (hq : q ≠ []) :
    getPath (.obj []) q = none := by
  cases q with
  | nil => exact absurd rfl hq
  | cons a as => simp [getPath, dictGet]

theorem setKeyPath_ok_of_validPath (p : List String) (cfg : JValue) (v : Int)
    (h : validPath cfg p) : ∃ n, setKeyPath cfg p v = .ok n := by
  induction p generalizing cfg with
  | nil => exact absurd rfl h.1
  | cons k tl ih =>
      obtain ⟨-, hsc⟩ := h
      obtain ⟨d, rfl⟩ : ∃ d, cfg = .obj d := by
        cases cfg with
        | obj d => exact ⟨d, rfl⟩
        | scalar s =>
            exact absurd rfl (hsc [] s (pathLe_nil_left _))
      cases tl with
      | nil => exact ⟨_, rfl⟩
      | cons k' rest =>
          have hvalid : validPath ((dictGet d k).getD (.obj [])) (k' :: rest) := by
            refine ⟨by simp, fun q s hq hcontra => ?_⟩
            cases hdk : dictGet d k with
            | some w =>
                rw [hdk] at hcontra
                refine hsc (k :: q) s ?_ ?_
                · obtain ⟨r, hr⟩ := hq
                  exact ⟨r, by simp [List.dropLast, hr]⟩
                · simpa [getPath, hdk] using hcontra
            | none =>
                rw [hdk] at hcontra
                cases q with
                | nil => simp [getPath] at hcontra
                | cons a as => simp [getPath, dictGet] at hcontra
          obtain ⟨n', hn'⟩ := ih _ hvalid
          exact ⟨.obj (dictSet d k n'), by simp [setKeyPath, hn', Except.map]⟩

theorem getPath_setKeyPath (p : List String) (cfg n : JValue) (v : Int)
    (h : setKeyPath cfg p v = .ok n) : getPath n p = some (.scalar v) := by
  induction p generalizing cfg n with
  | nil => simp [setKeyPath] at h
  | cons k tl ih =>
      cases tl with
      | nil =>
          cases cfg with
          | scalar s => simp [setKeyPath] at h
          | obj d =>
              simp [setKeyPath] at h
              subst h
              simp [getPath, dictGet_dictSet_self]
      | cons k' rest =>
          cases cfg with
          | scalar s => simp [setKeyPath] at h
          | obj d =>
              simp only [setKeyPath] at h
              cases hx : setKeyPath ((dictGet d k).getD (.obj [])) (k' :: rest) v with
              | error e => rw [hx] at h; simp [Except.map] at h
              | ok m =>
                  rw [hx] at h
                  simp [Except.map] at h
                  subst h
                  simpa [getPath, dictGet_dictSet_self] using ih _ _ hx

theorem getPath_setKeyPath_frame (p : List String) (cfg n : JValue) (v : Int)
    (h : setKeyPath cfg p v = .ok n) (q : List String)
    (h1 : ¬ pathLe p q) (h2 : ¬ pathLe q p) :
    getPath n q = getPath cfg q := by
  induction p generalizing cfg n q with
  | nil => simp [setKeyPath] at h
  | cons k tl ih =>
      cases q with
      | nil => exact absurd (pathLe_nil_left _) h2
      | cons j qs =>
          cases tl with
          | nil =>
              cases cfg with
              | scalar s => simp [setKeyPath] at h
              | obj d =>
                  simp [setKeyPath] at h
                  subst h
                  by_cases hjk : j = k
                  · subst hjk
                    exact absurd ⟨qs, rfl⟩ h1
                  · simp [getPath,
                      dictGet_dictSet_ne _ _ _ _ (fun hh => hjk hh.symm)]
          | cons k' rest =>
              cases cfg with
              | scalar s => simp [setKeyPath] at h
              | obj d =>
                  simp only [setKeyPath] at h
                  cases hx : setKeyPath ((dictGet d k).getD (.obj [])) (k' :: rest) v with
                  | error e => rw [hx] at h; simp [Except.map] at h
                  | ok m =>
                      rw [hx] at h
                      simp [Except.map] at h
                      subst h
                      by_cases hjk : j = k
                      · subst hjk
                        have h1' : ¬ pathLe (k' :: rest) qs := by
                          rintro ⟨r, hr⟩
                          exact h1 ⟨r, by simp [hr]⟩
                        have h2' : ¬ pathLe qs (k' :: rest) := by
                          rintro ⟨r, hr⟩
                          exact h2 ⟨r, by simp [hr]⟩
                        cases hdk : dictGet d j with
                        | some w =>
                            rw [hdk] at hx
                            have hih := ih _ _ hx qs h1' h2'
                            simp only [Option.getD] at hih
                            simp [getPath, dictGet_dictSet_self, hdk, hih]
                        | none =>
                            rw [hdk] at hx
                            have hih := ih _ _ hx qs h1' h2'
                            have hqs : qs ≠ [] := by
                              rintro rfl
                              exact h2' (pathLe_nil_left _)
                            rw [Option.getD] at hih
                            rw [getPath_obj_nil qs hqs] at hih
                            simp [getPath, dictGet_dictSet_self, hdk, hih]
                      · simp [getPath,
                          dictGet_dictSet_ne _ _ _ _ (fun hh => hjk hh.symm)]

theorem setKeyPath_idem (p : List String) (cfg n : JValue) (v : Int)
    (h : setKeyPath cfg p v = .ok n) : setKeyPath n p v = .ok n := by
  induction p generalizing cfg n with
  | nil => simp [setKeyPath] at h
  | cons k tl ih =>
      cases tl with
      | nil =>
          cases cfg with
          | scalar s => simp [setKeyPath] at h
          | obj d =>
              simp [setKeyPath] at h
              subst h
              simp [setKeyPath, dictSet_dictSet_self]
      | cons k' rest =>
          cases cfg with
          | scalar s => simp [setKeyPath] at h
          | obj d =>
              simp only [setKeyPath] at h
              cases hx : setKeyPath ((dictGet d k).getD (.obj [])) (k' :: rest) v with
              | error e => rw [hx] at h; simp [Except.map] at h
              | ok m =>
                  rw [hx] at h
                  simp [Except.map] at h
                  subst h
                  have hih := ih _ _ hx
                  simp [setKeyPath, dictGet_dictSet_self, hih, Except.map,
                    dictSet_dictSet_self]

theorem setKeyPath_error_of_scalar_inter (p : List String) (cfg : JValue)
    (q : List String) (s v : Int) (hq : q ≠ []) (hle : pathLe q p.dropLast)
    (hs : getPath cfg q = some (.scalar s)) :
    setKeyPath cfg p v = .error .attributeError ∨
    setKeyPath cfg p v = .error .typeError := by
  induction p generalizing cfg q with
  | nil => exact absurd (pathLe_nil_right _ hle) hq
  | cons k tl ih =>
      cases tl with
      | nil => exact absurd (pathLe_nil_right _ hle) hq
      | cons k' rest =>
          obtain ⟨j, qs, rfl⟩ : ∃ j qs, q = j :: qs := by
            cases q with
            | nil => exact absurd rfl hq
            | cons j qs => exact ⟨j, qs, rfl⟩
          have hdl : (k :: k' :: rest).dropLast = k :: (k' :: rest).dropLast := rfl
          rw [hdl] at hle
          obtain ⟨rfl, hle'⟩ := (pathLe_cons_iff _ _ _ _).mp hle
          obtain ⟨d, rfl⟩ : ∃ d, cfg = .obj d := by
            cases cfg with
            | obj d => exact ⟨d, rfl⟩
            | scalar s' => simp [getPath] at hs
          obtain ⟨w, hdk, hw⟩ : ∃ w, dictGet d j = some w ∧
              getPath w qs = some (.scalar s) := by
            cases hdk : dictGet d j with
            | some w =>
                refine ⟨w, rfl, ?_⟩
                simpa [getPath, hdk] using hs
            | none => simp [getPath, hdk] at hs
          cases qs with
          | nil =>
              obtain rfl : w = .scalar s := by simpa [getPath] using hw
              cases rest with
              | nil =>
                  right
                  simp [setKeyPath, hdk, Option.getD, Except.map]
              | cons r rs =>
                  left
                  simp [setKeyPath, hdk, Option.getD, Except.map]
          | cons a as =>
              have hih := ih w (a :: as) (by simp) hle' hw
              rw [show setKeyPath (.obj d) (j :: k' :: rest) v =
                (setKeyPath ((dictGet d j).getD (.obj [])) (k' :: rest) v).map
                  (fun cur => .obj (dictSet d j cur)) from rfl, hdk]
              rcases hih with hih | hih
              · left; simp [Option.getD, hih, Except.map]
              · right; simp [Option.getD, hih, Except.map]

theorem getPath_pathLe_obj (q : List String) (cfg w : JValue) (p : List String)
    (h : getPath cfg p = some w) (hle : pathLe q p) (hne : q ≠ p) :
    ∃ d, getPath cfg q = some (.obj d) := by
  induction q generalizing cfg p with
  | nil =>
      obtain ⟨r, rfl⟩ := hle
      cases r with
      | nil => exact absurd rfl hne
      | cons x xs =>
          cases cfg with
          | scalar s => simp [getPath] at h
          | obj d => exact ⟨d, rfl⟩
  | cons a as ih =>
      obtain ⟨r, rfl⟩ := hle
      cases cfg with
      | scalar s => simp [getPath] at h
      | obj d =>
          rw [List.cons_append] at h hne
          obtain ⟨u, hdk, hu⟩ : ∃ u, dictGet d a = some u ∧
              getPath u (as ++ r) = some w := by
            cases hdk : dictGet d a with
            | some u => rw [getPath, hdk] at h; exact ⟨u, rfl, h⟩
            | none => rw [getPath, hdk] at h; simp at h
          have hne' : as ≠ as ++ r := by
            intro hcontra
            exact hne (by rw [← hcontra])
          obtain ⟨d', hd'⟩ := ih u (as ++ r) hu ⟨r, rfl⟩ hne'
          exact ⟨d', by rw [getPath, hdk]; exact hd'⟩

theorem validPath_of_getPath_scalar (cfg : JValue) (p : List String) (s : Int)
    (hp : p ≠ []) (h : getPath cfg p = some (.scalar s)) : validPath cfg p := by
  refine ⟨hp, fun q s' hle hcontra => ?_⟩
  have hq : pathLe q p := by
    obtain ⟨r, hr⟩ := hle
    exact ⟨r ++ [p.getLast hp],
      by rw [← List.append_assoc, hr, List.dropLast_append_getLast hp]⟩
  have hne : q ≠ p := by
    rintro rfl
    obtain ⟨r, hr⟩ := hle
    have hl := congrArg List.length hr
    rw [List.length_append, List.length_dropLast] at hl
    have hpos : 0 < q.length := List.length_pos.mpr hp
    omega
  obtain ⟨d, hd⟩ := getPath_pathLe_obj q cfg (.scalar s) p h hq hne
  rw [hd] at hcontra
  exact (by simp at hcontra)

/-- Decidable form of the no-scalar-on-the-way condition: `true` iff no
leading segment of `keys` (the root included) reaches a scalar in
`cfg`. -/
def checkNoScalar : JValue → List String → Bool
  | .scalar _, _ => false
  | .obj _, [] => true
  | .obj d, k :: ks =>
      match dictGet d k with
      | some w => checkNoScalar w ks
      | none => true

/-- Decidable form of `validPath`. -/
def validPathB (cfg : JValue) (p : List String) : Bool :=
  !p.isEmpty && checkNoScalar cfg p.dropLast

theorem checkNoScalar_spec (q : List String) (cfg : JValue) (t : List String)
    (h : checkNoScalar cfg t = true) (hle : pathLe q t) (s : Int) :
    getPath cfg q ≠ some (.scalar s) := by
  induction q generalizing cfg t with
  | nil =>
      cases cfg with
      | scalar s' => simp [checkNoScalar] at h
      | obj d => simp [getPath]
  | cons a as ih =>
      obtain ⟨r, rfl⟩ := hle
      cases cfg with
      | scalar s' => simp [checkNoScalar] at h
      | obj d =>
          rw [List.cons_append] at h
          cases hdk : dictGet d a with
          | some w =>
              have h' : checkNoScalar w (as ++ r) = true := by
                simpa [checkNoScalar, hdk] using h
              simpa [getPath, hdk] using ih w (as ++ r) h' ⟨r, rfl⟩
          | none => simp [getPath, hdk]

theorem validPath_of_validPathB (cfg : JValue) (p : List String)
    (h : validPathB cfg p = true) : validPath cfg p := by
  rw [validPathB, Bool.and_eq_true] at h
  refine ⟨by simpa using h.1, fun q s hle => ?_⟩
  exact checkNoScalar_spec q cfg p.dropLast h.2 hle s

theorem persistFileContents_mem_nil (doc : JValue) :
    "" ∈ persistFileContents doc := by
  rw [persistFileContents]
  exact List.mem_map.mpr ⟨0, List.mem_range.mpr (Nat.succ_pos _), rfl⟩

theorem persistFileContents_getLast (doc : JValue) :
    (persistFileContents doc).getLast? = some (dumpJson doc) := by
  rw [persistFileContents, List.range_succ, List.map_append]
  simp only [List.map_cons, List.map_nil]
  rw [List.getLast?_concat]
  congr 1
  have hlen : (dumpJson doc).length = (dumpJson doc).toList.length := rfl
  rw [hlen, List.take_length]
  cases dumpJson doc
  rfl

theorem jGet_chain3_eq_getPath (d : JDict) (n g m : String)
    (h1 : ∀ v, dictGet d n = some v → ∃ dn, v = .obj dn)
    (h2 : ∀ dn, dictGet d n = some (.obj dn) →
      ∀ v, dictGet dn g = some v → ∃ dg, v = .obj dg) :
    ((jGet (.obj d) n).bind fun v => jGet v g).bind (fun v => jGet v m) =
      .ok ((getPath (.obj d) [n, g, m]).getD (.obj [])) := by
  cases hdn : dictGet d n with
  | none => simp [jGet, hdn, getPath, dictGet, Except.bind, Option.getD]
  | some v =>
      obtain ⟨dn, rfl⟩ := h1 v hdn
      cases hdg : dictGet dn g with
      | none => simp [jGet, hdn, hdg, getPath, dictGet, Except.bind, Option.getD]
      | some w =>
          obtain ⟨dg, rfl⟩ := h2 dn hdn w hdg
          cases hdm : dictGet dg m with
          | none => simp [jGet, hdn, hdg, hdm, getPath, Except.bind, Option.getD]
          | some u => simp [jGet, hdn, hdg, hdm, getPath, Except.bind, Option.getD]

/-- Decidable observation: the scalar stored at a path, if any. -/
def scalarAt (x : JValue) (q : List String) : Option Int :=
  match getPath x q with
  | some (.scalar s) => some s
  | _ => none

/-- Decidable observation: whether a path is present. -/
def presentAt (x : JValue) (q : List String) : Bool :=
  (getPath x q).isSome

theorem ne_of_scalarAt_ne (x y : JValue) (q : List String)
    (h : scalarAt x q ≠ scalarAt y q) : x ≠ y := fun hxy => h (hxy ▸ rfl)

theorem ne_of_presentAt_ne (x y : JValue) (q : List String)
    (h : presentAt x q ≠ presentAt y q) : x ≠ y := fun hxy => h (hxy ▸ rfl)

/-- Group mapping of the namespace of concrete scenarios A, C and D. -/
def dnPreset : JDict :=
  [("default", .obj [("temp", .scalar 7)]), ("modelA", .obj [("temp", .scalar 2)])]

/-- Document of concrete scenarios A, C and D:
`{"preset": {"default": {"temp": ...}, "modelA": {"temp": ...}}}`. -/
def docPresetD : JDict := [("preset", .obj dnPreset)]

def docPreset : JValue := .obj docPresetD

/-- Mode mapping for the slug `"code"` of concrete scenario B. -/
def dgCode : JDict :=
  [("architect", .obj [("temp", .scalar 1)]), ("default", .obj [("temp", .scalar 5)])]

/-- Slug mapping of the namespace of concrete scenario B. -/
def dnSlug : JDict := [("code", .obj dgCode)]

/-- Document of concrete scenario B:
`{"slug_preset": {"code": {"architect": ..., "default": ...}}}`. -/
def docSlugD : JDict := [("slug_preset", .obj dnSlug)]

def docSlug : JValue := .obj docSlugD

/-- A one-namespace document used as the pre-state of persistence runs. -/
def docOld : JValue := .obj [("preset", .obj [("default", .obj [("temp", .scalar 7)])])]

/-- `docOld` after `update_preset(["preset", "default", "temp"], 9)`. -/
def docNew : JValue := .obj [("preset", .obj [("default", .obj [("temp", .scalar 9)])])]

/-- `docOld` after `update_preset(["preset", "default", "temp"], 11)`. -/
def docNew11 : JValue := .obj [("preset", .obj [("default", .obj [("temp", .scalar 11)])])]

/-- `docOld` mid-walk: `"modelC"` ensured by `setdefault` but still empty. -/
def docMid : JValue :=
  .obj [("preset", .obj [("default", .obj [("temp", .scalar 7)]), ("modelC", .obj [])])]

/-- `docOld` after `update_preset(["preset", "modelC", "temp"], 9)`. -/
def docModelC : JValue :=
  .obj [("preset", .obj [("default", .obj [("temp", .scalar 7)]),
    ("modelC", .obj [("temp", .scalar 9)])])]

/-- Claim C3 counterexample: on the document `{"preset": {"modelA": 5}}`
the entry at the group exists but is a scalar, not a flat ParameterSet,
and the two-argument lookup returns that scalar unchanged instead of
the empty ParameterSet the claim requires. -/
theorem resolve_two_arg_nonflat_cex :
    get_preset_by_preset_model_name
      (.obj [("preset", .obj [("modelA", .scalar 5)])]) "preset" "modelA" =
      .ok (.scalar 5) ∧
    (Except.ok (JValue.scalar 5) : Except PyErr JValue) ≠ .ok (.obj []) :=
  ⟨rfl, fun h => JValue.noConfusion (Except.ok.inj h)⟩

/-- Claim C3 (amended): the two-argument lookup returns
`document[namespace][group]` whenever `document[namespace]` is a mapping
containing `group` — whatever that value is, flat ParameterSet or not —
returns an empty ParameterSet when the namespace is absent or its
mapping lacks the group, and raises `AttributeError` when
`document[namespace]` is itself a scalar. -/
theorem resolve_two_arg_characterization (d : JDict) (p g : String) :
    (dictGet d p = none →
      get_preset_by_preset_model_name (.obj d) p g = .ok (.obj [])) ∧
    (∀ m, dictGet d p = some (.obj m) →
      get_preset_by_preset_model_name (.obj d) p g =
        .ok ((dictGet m g).getD (.obj []))) ∧
    (∀ s, dictGet d p = some (.scalar s) →
      get_preset_by_preset_model_name (.obj d) p g = .error .attributeError) := by
  refine ⟨fun h => ?_, fun m h => ?_, fun s h => ?_⟩ <;>
    simp [get_preset_by_preset_model_name, jGet, h, Except.bind, dictGet, Option.getD]

/-- Witness for `resolve_two_arg_characterization`, at scenario A's
document: the absent group `"modelB"` resolves to the empty
ParameterSet, and a scalar-valued namespace raises. -/
theorem resolve_two_arg_characterization_witness :
    get_preset_by_preset_model_name docPreset "preset" "modelB" =
      .ok ((dictGet dnPreset "modelB").getD (.obj [])) ∧
    get_preset_by_preset_model_name (.obj [("p", .scalar 1)]) "p" "g" =
      .error .attributeError :=
  ⟨(resolve_two_arg_characterization docPresetD "preset" "modelB").2.1 dnPreset rfl,
   (resolve_two_arg_characterization [("p", .scalar 1)] "p" "g").2.2 1 rfl⟩

/-- Claim C4: when the traversed levels that exist are mappings, the
three-argument lookup is a single exact-path probe returning
`document[n][g][m]` if all three levels are present and the empty
ParameterSet when any level is absent, and the group default reads
`document[n][g]["default"]` in exactly the same way. -/
theorem resolve_three_arg_exact_probe (d : JDict) (n g m : String)
    (h1 : ∀ v, dictGet d n = some v → ∃ dn, v = .obj dn)
    (h2 : ∀ dn, dictGet d n = some (.obj dn) →
      ∀ v, dictGet dn g = some v → ∃ dg, v = .obj dg) :
    get_preset_by_preset_slug_model_name (.obj d) n g m =
      .ok ((getPath (.obj d) [n, g, m]).getD (.obj [])) ∧
    get_default_slug_preset (.obj d) n g =
      .ok ((getPath (.obj d) [n, g, "default"]).getD (.obj [])) :=
  ⟨jGet_chain3_eq_getPath d n g m h1 h2,
   jGet_chain3_eq_getPath d n g "default" h1 h2⟩

/-- Witness for `resolve_three_arg_exact_probe`, at scenario B's
document, mode `"architect"`. -/
theorem resolve_three_arg_exact_probe_witness :
    (get_preset_by_preset_slug_model_name docSlug "slug_preset" "code" "architect" =
      .ok ((getPath docSlug ["slug_preset", "code", "architect"]).getD (.obj [])) ∧
     get_default_slug_preset docSlug "slug_preset" "code" =
      .ok ((getPath docSlug ["slug_preset", "code", "default"]).getD (.obj []))) ∧
    (getPath docSlug ["slug_preset", "code", "architect"]).getD (.obj []) =
      .obj [("temp", .scalar 1)] ∧
    (getPath docSlug ["slug_preset", "code", "default"]).getD (.obj []) =
      .obj [("temp", .scalar 5)] := by
  refine ⟨resolve_three_arg_exact_probe docSlugD "slug_preset" "code" "architect"
    ?_ ?_, rfl, rfl⟩
  · intro v hv
    exact ⟨dnSlug, (Option.some.inj hv).symm⟩
  · intro dn hdn v hv
    obtain rfl : dnSlug = dn := by
      have h := Option.some.inj hdn
      injection h
    exact ⟨dgCode, (Option.some.inj hv).symm⟩

/-- Claim C5: with the document loaded, `update_preset` on an empty key
path fails (the `IndexError` from evaluating `key_path[-1]`) before any
mutation or write, leaving the state untouched. -/
theorem updateEntry_empty_path_fails (w : Bool) (st : MState) (cfg : JValue)
    (v : Int) (hc : st.cache = some cfg) :
    update_preset w st [] v = (st, .error .indexError) := by
  simp [update_preset, _load_config, hc, setKeyPath]

/-- Witness for `updateEntry_empty_path_fails`. -/
theorem updateEntry_empty_path_fails_witness :
    update_preset true ⟨some docOld, some docOld⟩ [] 3 =
      (⟨some docOld, some docOld⟩, .error .indexError) :=
  updateEntry_empty_path_fails true ⟨some docOld, some docOld⟩ docOld 3 rfl

/-- Claim C9: the three-argument lookup and the group-default lookup
raise (`AttributeError` from calling `.get` on a non-dict) instead of
returning an empty ParameterSet on documents where `document[namespace]`
or `document[namespace][group]` exists but holds a scalar. -/
theorem slug_lookup_raises_on_scalar_levels :
    get_preset_by_preset_slug_model_name (.obj [("preset", .scalar 1)])
      "preset" "code" "m" = .error .attributeError ∧
    get_default_slug_preset (.obj [("preset", .scalar 1)]) "preset" "code" =
      .error .attributeError ∧
    get_preset_by_preset_slug_model_name
      (.obj [("preset", .obj [("code", .scalar 2)])]) "preset" "code" "m" =
      .error .attributeError ∧
    get_default_slug_preset (.obj [("preset", .obj [("code", .scalar 2)])])
      "preset" "code" = .error .attributeError :=
  ⟨rfl, rfl, rfl, rfl⟩

/-- Claim C2: for every valid non-empty key path (no intermediate key
holding a scalar) and scalar value, `update_preset` succeeds and
persists; the document read back from the durable file (bypassing the
cache) holds the value at the path — intermediate mappings having been
created for keys not previously present — and every path diverging from
the written one is unchanged (no-clobber). -/
theorem updateEntry_reload_no_clobber (st : MState) (cfg : JValue)
    (p : List String) (v : Int) (hc : st.cache = some cfg)
    (hv : validPath cfg p) :
    ∃ n, (update_preset true st p v).1.file = some n ∧
      (update_preset true st p v).2 = .ok () ∧
      getPath n p = some (.scalar v) ∧
      ∀ q, ¬ pathLe p q → ¬ pathLe q p → getPath n q = getPath cfg q := by
  obtain ⟨n, hn⟩ := setKeyPath_ok_of_validPath p cfg v hv
  refine ⟨n, ?_, ?_, getPath_setKeyPath p cfg n v hn,
    fun q h1 h2 => getPath_setKeyPath_frame p cfg n v hn q h1 h2⟩ <;>
    simp [update_preset, _load_config, hc, hn]

/-- Witness for `updateEntry_reload_no_clobber`, at scenario C:
`update_preset(["preset", "modelC", "temp"], 9)` on a document lacking
`"modelC"`. -/
theorem updateEntry_reload_no_clobber_witness :
    validPath docOld ["preset", "modelC", "temp"] ∧
    ∃ n, (update_preset true ⟨some docOld, some docOld⟩
        ["preset", "modelC", "temp"] 9).1.file = some n ∧
      (update_preset true ⟨some docOld, some docOld⟩
        ["preset", "modelC", "temp"] 9).2 = .ok () ∧
      getPath n ["preset", "modelC", "temp"] = some (.scalar 9) ∧
      ∀ q, ¬ pathLe ["preset", "modelC", "temp"] q →
        ¬ pathLe q ["preset", "modelC", "temp"] →
        getPath n q = getPath docOld q :=
  ⟨validPath_of_validPathB _ _ rfl,
   updateEntry_reload_no_clobber ⟨some docOld, some docOld⟩ docOld
     ["preset", "modelC", "temp"] 9 rfl (validPath_of_validPathB _ _ rfl)⟩

/-- Claim C6: `update_preset` fails — `AttributeError` from `setdefault`
on a scalar, or `TypeError` from item assignment into a scalar; these
realize the spec's `KeyPathConflictError` — whenever an intermediate key
of the path already holds a scalar, leaving cache and file untouched
(it never descends through or overwrites a non-mapping with a mapping);
while overwriting an existing scalar with a scalar at the final key
succeeds. -/
theorem updateEntry_scalar_conflict (w : Bool) (st : MState) (cfg : JValue)
    (p : List String) (v : Int) (hc : st.cache = some cfg) :
    (∀ q s, q ≠ [] → pathLe q p.dropLast → getPath cfg q = some (.scalar s) →
      ∃ e, update_preset w st p v = (st, .error e) ∧
        (e = .attributeError ∨ e = .typeError)) ∧
    (∀ s, p ≠ [] → getPath cfg p = some (.scalar s) →
      (update_preset true st p v).2 = .ok ()) := by
  constructor
  · intro q s hq hle hs
    rcases setKeyPath_error_of_scalar_inter p cfg q s v hq hle hs with he | he
    · exact ⟨.attributeError,
        by simp [update_preset, _load_config, hc, he], Or.inl rfl⟩
    · exact ⟨.typeError,
        by simp [update_preset, _load_config, hc, he], Or.inr rfl⟩
  · intro s hp hs
    obtain ⟨n, hn⟩ := setKeyPath_ok_of_validPath p cfg v
      (validPath_of_getPath_scalar cfg p s hp hs)
    simp [update_preset, _load_config, hc, hn]

/-- Witness for `updateEntry_scalar_conflict`, at scenario D:
descending through the scalar `modelA.temp` fails, overwriting it
succeeds. -/
theorem updateEntry_scalar_conflict_witness :
    (∃ e, update_preset true ⟨some docPreset, some docPreset⟩
        ["preset", "modelA", "temp", "nested"] 1 =
        (⟨some docPreset, some docPreset⟩, .error e) ∧
      (e = .attributeError ∨ e = .typeError)) ∧
    (update_preset true ⟨some docPreset, some docPreset⟩
        ["preset", "modelA", "temp"] 3).2 = .ok () :=
  ⟨(updateEntry_scalar_conflict true ⟨some docPreset, some docPreset⟩ docPreset
      ["preset", "modelA", "temp", "nested"] 1 rfl).1
      ["preset", "modelA", "temp"] 2 (by simp) ⟨[], rfl⟩ rfl,
   (updateEntry_scalar_conflict true ⟨some docPreset, some docPreset⟩ docPreset
      ["preset", "modelA", "temp"] 3 rfl).2 2 (by simp) rfl⟩

/-- Claim C8: with the document loaded and a valid key path, running
`update_preset` twice in succession with the same arguments yields
exactly the state — cache and durable file — of running it once. -/
theorem updateEntry_idempotent (st : MState) (cfg : JValue) (p : List String)
    (v : Int) (hc : st.cache = some cfg) (hv : validPath cfg p) :
    update_preset true (update_preset true st p v).1 p v =
      update_preset true st p v := by
  obtain ⟨n, hn⟩ := setKeyPath_ok_of_validPath p cfg v hv
  have hidem := setKeyPath_idem p cfg n v hn
  simp [update_preset, _load_config, hc, hn, hidem]

/-- Witness for `updateEntry_idempotent`. -/
theorem updateEntry_idempotent_witness :
    validPath docOld ["preset", "default", "temp"] ∧
    update_preset true (update_preset true ⟨some docOld, some docOld⟩
        ["preset", "default", "temp"] 9).1 ["preset", "default", "temp"] 9 =
      update_preset true ⟨some docOld, some docOld⟩
        ["preset", "default", "temp"] 9 :=
  ⟨validPath_of_validPathB _ _ rfl,
   updateEntry_idempotent ⟨some docOld, some docOld⟩ docOld
     ["preset", "default", "temp"] 9 rfl (validPath_of_validPathB _ _ rfl)⟩

/-- Claim C1 counterexample: `update_preset` writes by truncating
`config.json` in place (`open("w")`) and streaming `json.dump` — not by
writing a temporary file and renaming — so the empty content is an
observable mid-write state of the durable file, and it parses as no
document at all, in particular not as the pre-write document (which the
pre-write content did parse as).  Moreover, on a failed write the cache
is not left unchanged: it already holds the post-mutation document. -/
theorem persist_truncates_midwrite_cex :
    parseJsonDoc (dumpJson docOld) = some docOld ∧
    "" ∈ persistFileContents docNew ∧
    parseJsonDoc "" = none ∧
    (update_preset false ⟨some docOld, some docOld⟩
        ["preset", "default", "temp"] 9).1.cache = some docNew ∧
    (update_preset false ⟨some docOld, some docOld⟩
        ["preset", "default", "temp"] 9).1.file = some docOld ∧
    docNew ≠ docOld := by
  refine ⟨?_, persistFileContents_mem_nil docNew, rfl, rfl, rfl,
    ne_of_scalarAt_ne _ _ ["preset", "default", "temp"] (by decide)⟩
  simp only [docOld, dumpJson, dumpVal, dumpEntries, jsonIndent]
  rfl

/-- Claim C1 (amended): persistence is not atomic.  `update_preset`
rewrites `config.json` in place — the observable file contents run from
the truncated empty file up to the complete new serialization — and,
because the cached object is mutated in place before the write, a
failed write returns with the cache holding the post-mutation document;
the durable file keeps its pre-write content only when the failure
comes before truncation. -/
theorem persist_failed_write_state (st : MState) (cfg n : JValue)
    (p : List String) (v : Int) (hc : st.cache = some cfg)
    (hs : setKeyPath cfg p v = .ok n) :
    update_preset false st p v = ({ st with cache := some n }, .error .ioError) ∧
    "" ∈ persistFileContents n ∧
    (persistFileContents n).getLast? = some (dumpJson n) := by
  refine ⟨?_, persistFileContents_mem_nil n, persistFileContents_getLast n⟩
  simp [update_preset, _load_config, hc, hs]

/-- Witness for `persist_failed_write_state`. -/
theorem persist_failed_write_state_witness :
    setKeyPath docOld ["preset", "default", "temp"] 9 = .ok docNew ∧
    (update_preset false ⟨some docOld, some docOld⟩
        ["preset", "default", "temp"] 9 =
      ({ file := some docOld, cache := some docNew }, .error .ioError) ∧
     "" ∈ persistFileContents docNew ∧
     (persistFileContents docNew).getLast? = some (dumpJson docNew)) :=
  ⟨rfl, persist_failed_write_state ⟨some docOld, some docOld⟩ docOld docNew
    ["preset", "default", "temp"] 9 rfl rfl⟩

/-- Claim C7 counterexample: after a failed write the cache holds the
post-mutation document while the durable file still holds the pre-write
one — the cache diverges from what was last persisted, because the
cached object was mutated in place before the write. -/
theorem cache_file_divergence_cex :
    (update_preset false ⟨some docOld, some docOld⟩
        ["preset", "default", "temp"] 11).1.cache = some docNew11 ∧
    (update_preset false ⟨some docOld, some docOld⟩
        ["preset", "default", "temp"] 11).1.file = some docOld ∧
    (update_preset false ⟨some docOld, some docOld⟩
        ["preset", "default", "temp"] 11).2 = .error .ioError ∧
    docNew11 ≠ docOld :=
  ⟨rfl, rfl, rfl, ne_of_scalarAt_ne _ _ ["preset", "default", "temp"] (by decide)⟩

/-- Claim C7 (amended): once the cache is populated, every load returns
the cached document and leaves the state unchanged, and a successful
mutation returns with cache and durable file both holding exactly the
post-mutation document; the never-diverge clause holds only on these
success paths, not after a failed write. -/
theorem cache_consistency_success_paths (st : MState) (cfg n : JValue)
    (p : List String) (v : Int) (hc : st.cache = some cfg)
    (hs : setKeyPath cfg p v = .ok n) :
    _load_config st = (st, .ok cfg) ∧
    update_preset true st p v = (⟨some n, some n⟩, .ok ()) := by
  constructor
  · simp [_load_config, hc]
  · simp [update_preset, _load_config, hc, hs]

/-- Witness for `cache_consistency_success_paths`. -/
theorem cache_consistency_success_paths_witness :
    setKeyPath docOld ["preset", "default", "temp"] 9 = .ok docNew ∧
    (_load_config ⟨some docOld, some docOld⟩ =
      (⟨some docOld, some docOld⟩, .ok docOld) ∧
     update_preset true ⟨some docOld, some docOld⟩
        ["preset", "default", "temp"] 9 = (⟨some docNew, some docNew⟩, .ok ())) :=
  ⟨rfl, cache_consistency_success_paths ⟨some docOld, some docOld⟩ docOld docNew
    ["preset", "default", "temp"] 9 rfl rfl⟩

/-- Claim C10 counterexample: there is no mutual-exclusion scope and no
atomic reference swap — the walk mutates the shared cached document in
place, so a concurrent reader holding the cached reference can observe
`docMid`, a half-written document (`"modelC"` created but still empty)
that is neither the pre-update nor the post-update document. -/
theorem half_written_doc_observable_cex :
    updateWalkStates docOld ["preset", "modelC", "temp"] 9 =
      [docOld, docOld, docMid, docModelC] ∧
    docMid ≠ docOld ∧ docMid ≠ docModelC :=
  ⟨rfl, ne_of_presentAt_ne _ _ ["preset", "modelC"] (by decide),
   ne_of_presentAt_ne _ _ ["preset", "modelC", "temp"] (by decide)⟩

/-- Claim C10 (amended): updates mutate the shared cached document in
place with no lock or reference swap: the observable walk states start
at the pre-update document and, when the update succeeds, end at the
post-update document, passing through intermediate half-written
states. -/
theorem update_walk_states_endpoints (cfg n : JValue) (p : List String)
    (v : Int) (hs : setKeyPath cfg p v = .ok n) :
    (updateWalkStates cfg p v).head? = some cfg ∧
    (updateWalkStates cfg p v).getLast? = some n := by
  constructor
  · rw [updateWalkStates, List.range_succ_eq_map]
    simp [ensureKeys]
  · rw [updateWalkStates, hs]
    exact List.getLast?_concat _

/-- Witness for `update_walk_states_endpoints`. -/
theorem update_walk_states_endpoints_witness :
    setKeyPath docOld ["preset", "modelC", "temp"] 9 = .ok docModelC ∧
    ((updateWalkStates docOld ["preset", "modelC", "temp"] 9).head? =
      some docOld ∧
     (updateWalkStates docOld ["preset", "modelC", "temp"] 9).getLast? =
      some docModelC) :=
  ⟨rfl, update_walk_states_endpoints docOld docModelC
    ["preset", "modelC", "temp"] 9 rfl⟩
